import Mathlib

/-!
Verification of `area_per_ppp_sector.py` (Anaphory/footprint).

The script builds a country-indicator table from World-Bank series, derives a
PPP ratio column, extracts the sector list and total-output row from an ICIO
table, assembles a countries × sectors design matrix with NaN sentinels for
missing keys, drops rows containing NaN, and solves a non-negative
least-squares problem whose target is the last sector column.

Numeric cells are embedded as `FVal` (a rational, NaN, or a signed infinity),
mirroring IEEE floating-point behaviour for the operations the script uses.
String identifiers are embedded at the code-point level (`String.data`),
matching Python string semantics of `startswith` and slicing.
-/

namespace Footprint

/-- A floating-point-like value: NaN, a signed infinity, or a finite value
(embedded as a rational). Cells of the pandas/numpy tables are `FVal`s. -/
inductive FVal where
  | nan : FVal
  | inf : Bool → FVal
  | fin : ℚ → FVal
deriving DecidableEq, Repr

/-- Embeds `numpy.isnan` on one value: `true` exactly on the NaN sentinel. -/
def FVal.isnan : FVal → Bool
  | .nan => true
  | _ => false

/-- IEEE-style division on `FVal`: NaN propagates, inf/inf and 0/0 are NaN,
finite/0 is a signed infinity, finite/inf is 0, and finite/finite with a
non-zero divisor is exact rational division. -/
def fdiv : FVal → FVal → FVal
  | .nan, _ => .nan
  | _, .nan => .nan
  | .inf _, .inf _ => .nan
  | .inf s, .fin b => .inf (if 0 ≤ b then s else !s)
  | .fin _, .inf _ => .fin 0
  | .fin a, .fin b =>
    if b = 0 then (if a = 0 then .nan else .inf (decide (0 < a)))
    else .fin (a / b)

/-- Embeds Python `pre.startswith`-style prefix test at the code-point level:
`sect.startswith("AUS_")` becomes `pyStartswith "AUS_" sect`. -/
def pyStartswith (pre s : String) : Bool :=
  List.isPrefixOf pre.data s.data

/-- Embeds the Python slice `s[n:]` at the code-point level. -/
def pyDrop (s : String) (n : Nat) : String :=
  String.mk (s.data.drop n)

/-- Embeds line 85: `sectors = [sect[4:] for sect in all_matrix.columns if
sect.startswith("AUS_")]` — suffixes of the columns carrying the fixed
reference-country prefix, in source column order. -/
def sectors (columns : List String) : List String :=
  (columns.filter (fun sect => pyStartswith "AUS_" sect)).map (fun sect => pyDrop sect 4)

/-- Embeds lines 101–110: the pre-filter design matrix `output_ppp`. Row `c`,
column `s` holds `all_output[country + "_" + sector] / alldata["PPP"][country]`
when the composite key is present, and the NaN sentinel on a `KeyError`.
`all_output` is the "OUT" row as an association list and `ppp` the PPP column
of the harmonized table (total on country codes, as `countries` is the
harmonized table's own index). -/
def output_ppp (countries sectorList : List String)
    (all_output : List (String × FVal)) (ppp : String → FVal) : List (List FVal) :=
  countries.map (fun country =>
    sectorList.map (fun sector =>
      match all_output.lookup (country ++ "_" ++ sector) with
      | some v => fdiv v (ppp country)
      | none => FVal.nan))

/-- Embeds the diagnostic `print(country+"_"+sector)` of line 109: the missing
composite keys, in the loop order in which they are printed. -/
def missingKeys (countries sectorList : List String)
    (all_output : List (String × FVal)) : List String :=
  countries.flatMap (fun country =>
    sectorList.filterMap (fun sector =>
      if (all_output.lookup (country ++ "_" ++ sector)).isNone
      then some (country ++ "_" ++ sector) else none))

/-- Embeds line 113: `output_ppp = output_ppp[~numpy.isnan(output_ppp).any(1)]`
— keep exactly the rows having no NaN cell. -/
def filterRows (m : List (List FVal)) : List (List FVal) :=
  m.filter (fun row => !(row.any FVal.isnan))

/-- Cell accessor for a row-major matrix, with NaN as out-of-range default. -/
def cellAt (m : List (List FVal)) (i j : Nat) : FVal :=
  (m.getD i []).getD j FVal.nan

/-- Embeds the numpy column slice `m[:, -1]` (the regression target of line
115): the last entry of every row, or `none` when some row has no last entry
(numpy raises an `IndexError` on a zero-width axis). -/
def lastColumn (m : List (List FVal)) : Option (List FVal) :=
  m.mapM List.getLast?

/-- Embeds line 61, `data.write().max(axis=0)`, for the observation list of one
country: the maximum observed value over the time axis (`none` when no
observation exists, pandas' NaN for an empty column). Each observation is a
(period, value) pair. -/
def sequenceValue (obs : List (Nat × ℚ)) : Option ℚ :=
  (obs.map Prod.snd).max?

/-- Embeds line 68: `alldata["PPP"] = alldata["GNI per capita, Atlas method
(current US$)"] / alldata["GNI per capita, PPP (current international $)"]`,
the elementwise (index-aligned) division of the two indicator columns. -/
def pppColumn (atlas gnippp : String → FVal) : String → FVal :=
  fun country => fdiv (atlas country) (gnippp country)

/-- Dot product of a matrix row with a coefficient vector (truncating at the
shorter length, as numpy matrix–vector product over matching shapes). -/
def dot (r w : List ℚ) : ℚ :=
  (List.zipWith (· * ·) r w).sum

/-- The squared Euclidean norm of `A·w − b`: the objective of the bounded
least-squares problem of line 115. -/
def sumSqResid (A : List (List ℚ)) (b w : List ℚ) : ℚ :=
  (List.zipWith (fun r t => (dot r w - t) ^ 2) A b).sum

/-- Embeds the numpy slice `output_ppp[:, :-1]` of line 115: every column
except the last, i.e. each row with its last entry removed. -/
def predictors (m : List (List ℚ)) : List (List ℚ) :=
  m.map List.dropLast

/-- Embeds the numpy slice `output_ppp[:, -1]` of line 115 on a matrix whose
rows are non-empty: the last entry of every row. -/
def target (m : List (List ℚ)) : List ℚ :=
  m.filterMap List.getLast?

/-- Modelled from the spec: `scipy.optimize.lsq_linear(A, b, (0, numpy.inf))`
is SciPy library code, not part of this repository. Per the spec ("minimize
over `w` (length = |Sectors| − 1, elementwise non-negative, no upper bound)
the squared Euclidean norm of (predictors·w − target)"), its result is
characterized as a feasible point of the stated length attaining the minimal
objective among all feasible points; `k` is the number of predictor columns. -/
def IsLsqLinearSolution (k : Nat) (A : List (List ℚ)) (b w : List ℚ) : Prop :=
  w.length = k ∧ (∀ x ∈ w, 0 ≤ x) ∧
    ∀ w' : List ℚ, w'.length = k → (∀ x ∈ w', 0 ≤ x) →
      sumSqResid A b w ≤ sumSqResid A b w'

/-- The n × n identity matrix (the spec's concrete predictor matrix for the
identity-reproduction property), built row by row. -/
def idMat : Nat → List (List ℚ)
  | 0 => []
  | n + 1 => ((1 : ℚ) :: List.replicate n 0) :: (idMat n).map (fun row => (0 : ℚ) :: row)

/-- Embeds line 118, `dict(zip(sectors, optimized.x))`: the reported pairing
of sector names with estimated coefficients, as the list of pairs `zip`
produces (Python `zip` truncates at the shorter argument). -/
def reportPairs (sectorList : List String) (x : List ℚ) : List (String × ℚ) :=
  List.zip sectorList x

/-! Helper lemmas about the design-matrix builder. -/

/-- Closed form of a pre-filter design-matrix cell at in-range indices. -/
theorem cellAt_output_ppp (countries sectorList : List String)
    (all_output : List (String × FVal)) (ppp : String → FVal) (i j : Nat)
    (hi : i < countries.length) (hj : j < sectorList.length) :
    cellAt (output_ppp countries sectorList all_output ppp) i j =
      match all_output.lookup (countries.getD i "" ++ "_" ++ sectorList.getD j "") with
      | some v => fdiv v (ppp (countries.getD i ""))
      | none => FVal.nan := by
  unfold cellAt output_ppp
  simp [List.getD_eq_getElem?_getD, List.getElem?_eq_getElem, hi, hj]

/-- Closed form of a pre-filter design-matrix row at an in-range index. -/
theorem row_output_ppp (countries sectorList : List String)
    (all_output : List (String × FVal)) (ppp : String → FVal) (i : Nat)
    (hi : i < countries.length) :
    (output_ppp countries sectorList all_output ppp).getD i [] =
      sectorList.map (fun sector =>
        match all_output.lookup (countries.getD i "" ++ "_" ++ sector) with
        | some v => fdiv v (ppp (countries.getD i ""))
        | none => FVal.nan) := by
  unfold output_ppp
  simp [List.getD_eq_getElem?_getD, List.getElem?_eq_getElem, hi]

/-- The diagnostic list contains exactly the composite keys of pairs whose
lookup in the total-output row misses. -/
theorem mem_missingKeys_iff (countries sectorList : List String)
    (all_output : List (String × FVal)) (key : String) :
    key ∈ missingKeys countries sectorList all_output ↔
      ∃ c ∈ countries, ∃ s ∈ sectorList,
        key = c ++ "_" ++ s ∧ all_output.lookup key = none := by
  simp only [missingKeys, List.mem_flatMap, List.mem_filterMap,
    Option.ite_none_right_eq_some, Option.some.injEq, Option.isNone_iff_eq_none]
  constructor
  · rintro ⟨c, hc, s, hs, hnone, hkey⟩
    exact ⟨c, hc, s, hs, hkey.symm, hkey ▸ hnone⟩
  · rintro ⟨c, hc, s, hs, hkey, hnone⟩
    exact ⟨c, hc, s, hs, hkey ▸ hnone, hkey.symm⟩

/-- NaN is absorbing on the right of the embedded division. -/
theorem fdiv_nan_right (v : FVal) : fdiv v FVal.nan = FVal.nan := by
  cases v <;> rfl

/-- C5: for every set of output-table column labels, sector extraction returns
exactly the suffixes (prefix stripped) of the columns whose name begins with
the reference-country prefix "AUS_", in source order, and is empty iff no
column has that prefix; concretely, `["AUS_AGR", "USA_AGR", "AUS_MIN"]` yields
`["AGR", "MIN"]`. -/
theorem C5_sector_extraction (columns : List String) :
    sectors columns =
        columns.filterMap (fun sect =>
          if pyStartswith "AUS_" sect then some (pyDrop sect 4) else none)
    ∧ (sectors columns = [] ↔ ∀ sect ∈ columns, ¬ pyStartswith "AUS_" sect)
    ∧ sectors ["AUS_AGR", "USA_AGR", "AUS_MIN"] = ["AGR", "MIN"] := by
  refine ⟨?_, ?_, by decide⟩
  · induction columns with
    | nil => rfl
    | cons c cs ih =>
      by_cases h : pyStartswith "AUS_" c <;>
        simp only [sectors, List.filter_cons, List.filterMap_cons, h] at ih ⊢ <;>
        simp [h, ih]
  · simp [sectors, List.filter_eq_nil_iff]

/-- C1: whenever the composite key `country_c ++ "_" ++ sector_s` is present in
the total-output row with a finite value and country `c` has a defined,
non-zero PPP value, the pre-filter design-matrix cell at `(c, s)` is exactly
the total-output value divided by the country's PPP value. -/
theorem C1_design_cell (countries sectorList : List String)
    (all_output : List (String × FVal)) (ppp : String → FVal) (i j : Nat)
    (a p : ℚ) (hi : i < countries.length) (hj : j < sectorList.length)
    (hkey : all_output.lookup (countries.getD i "" ++ "_" ++ sectorList.getD j "") =
      some (FVal.fin a))
    (hppp : ppp (countries.getD i "") = FVal.fin p) (hp0 : p ≠ 0) :
    cellAt (output_ppp countries sectorList all_output ppp) i j = FVal.fin (a / p) := by
  rw [cellAt_output_ppp countries sectorList all_output ppp i j hi hj, hkey, hppp]
  simp [fdiv, hp0]

/-- Witness for C1 at a concrete instance: key "AAA_S1" present with value 6,
PPP of "AAA" equal to 2, cell (0,0) equal to 3. -/
theorem C1_design_cell_witness :
    cellAt (output_ppp ["AAA"] ["S1"] [("AAA_S1", FVal.fin 6)]
      (fun _ => FVal.fin 2)) 0 0 = FVal.fin (6 / 2) :=
  C1_design_cell ["AAA"] ["S1"] [("AAA_S1", FVal.fin 6)] (fun _ => FVal.fin 2)
    0 0 6 2 (by decide) (by decide) (by decide) rfl (by norm_num)

/-- C3: a missing composite key does not abort the build: the cell is the NaN
sentinel, the diagnostic list names that key (and consists exactly of the
missing country+sector keys), and the post-pass filter removes every row with
at least one NaN cell while retaining every fully-resolved row. -/
theorem C3_missing_key (countries sectorList : List String)
    (all_output : List (String × FVal)) (ppp : String → FVal) (i j : Nat)
    (hi : i < countries.length) (hj : j < sectorList.length)
    (hkey : all_output.lookup
      (countries.getD i "" ++ "_" ++ sectorList.getD j "") = none) :
    cellAt (output_ppp countries sectorList all_output ppp) i j = FVal.nan
    ∧ (countries.getD i "" ++ "_" ++ sectorList.getD j "") ∈
        missingKeys countries sectorList all_output
    ∧ (∀ key : String, key ∈ missingKeys countries sectorList all_output ↔
        ∃ c ∈ countries, ∃ s ∈ sectorList,
          key = c ++ "_" ++ s ∧ all_output.lookup key = none)
    ∧ (∀ row ∈ output_ppp countries sectorList all_output ppp,
        (∃ v ∈ row, v.isnan = true) →
          row ∉ filterRows (output_ppp countries sectorList all_output ppp))
    ∧ (∀ row ∈ output_ppp countries sectorList all_output ppp,
        (∀ v ∈ row, v.isnan = false) →
          row ∈ filterRows (output_ppp countries sectorList all_output ppp)) := by
  refine ⟨?_, ?_, mem_missingKeys_iff countries sectorList all_output, ?_, ?_⟩
  · rw [cellAt_output_ppp countries sectorList all_output ppp i j hi hj, hkey]
  · rw [mem_missingKeys_iff]
    exact ⟨countries.getD i "", by rw [List.getD_eq_getElem _ _ hi]; exact List.getElem_mem hi,
      sectorList.getD j "", by rw [List.getD_eq_getElem _ _ hj]; exact List.getElem_mem hj,
      rfl, hkey⟩
  · intro row _ hnan hmem
    rw [filterRows, List.mem_filter] at hmem
    obtain ⟨v, hv, hvnan⟩ := hnan
    have : row.any FVal.isnan = true := List.any_eq_true.mpr ⟨v, hv, hvnan⟩
    rw [this] at hmem
    exact absurd hmem.2 (by decide)
  · intro row hrow hok
    rw [filterRows, List.mem_filter]
    refine ⟨hrow, ?_⟩
    have : row.any FVal.isnan = false := by
      rw [List.any_eq_false]
      intro v hv
      rw [hok v hv]
      exact Bool.false_ne_true
    rw [this]
    rfl

/-- Witness for C3 at a concrete instance: countries ["AAA", "BBB"], sector
"S1", only key "AAA_S1" present; the key "BBB_S1" is missing and cell (1,0) is
the NaN sentinel. -/
theorem C3_missing_key_witness :
    ([("AAA_S1", FVal.fin 1)].lookup
        ((["AAA", "BBB"].getD 1 "") ++ "_" ++ (["S1"].getD 0 "")) = none)
    ∧ cellAt (output_ppp ["AAA", "BBB"] ["S1"] [("AAA_S1", FVal.fin 1)]
        (fun _ => FVal.fin 1)) 1 0 = FVal.nan :=
  ⟨by decide,
    (C3_missing_key ["AAA", "BBB"] ["S1"] [("AAA_S1", FVal.fin 1)]
      (fun _ => FVal.fin 1) 1 0 (by decide) (by decide) (by decide)).1⟩

/-- C10 counterexample: with an empty sector list the row of a country whose
PPP value is NaN has no cells, so it contains no NaN, survives the post-pass
row filter, and is present in the final matrix — the claim's "always absent"
fails at this input. -/
theorem C10_counterexample :
    ((fun _ => FVal.nan) : String → FVal) "AAA" = FVal.nan
    ∧ filterRows (output_ppp ["AAA"] [] [] (fun _ => FVal.nan)) = [[]] :=
  ⟨rfl, by decide⟩

/-- C10 as amended: provided the sector list is non-empty, for a country whose
PPP value is NaN every cell of that country's pre-filter row is the NaN
sentinel — also for composite keys present in the total-output row, and no
missing-key diagnostic is emitted for those present keys — and that country's
row is absent from the post-filter matrix. -/
theorem C10_ppp_nan_row_dropped (countries sectorList : List String)
    (all_output : List (String × FVal)) (ppp : String → FVal) (i : Nat)
    (hi : i < countries.length) (hnan : ppp (countries.getD i "") = FVal.nan)
    (hs : sectorList ≠ []) :
    (∀ j, j < sectorList.length →
        cellAt (output_ppp countries sectorList all_output ppp) i j = FVal.nan)
    ∧ (∀ j, j < sectorList.length →
        (all_output.lookup (countries.getD i "" ++ "_" ++ sectorList.getD j "")).isSome = true →
        (countries.getD i "" ++ "_" ++ sectorList.getD j "") ∉
          missingKeys countries sectorList all_output)
    ∧ (output_ppp countries sectorList all_output ppp).getD i [] ∉
        filterRows (output_ppp countries sectorList all_output ppp) := by
  have hall : ∀ v ∈ (output_ppp countries sectorList all_output ppp).getD i [],
      v.isnan = true := by
    rw [row_output_ppp countries sectorList all_output ppp i hi, hnan]
    intro v hv
    rw [List.mem_map] at hv
    obtain ⟨sec, _, hveq⟩ := hv
    rw [← hveq]
    cases h : all_output.lookup (countries.getD i "" ++ "_" ++ sec) <;>
      simp [h, fdiv_nan_right, FVal.isnan]
  refine ⟨?_, ?_, ?_⟩
  · intro j hj
    rw [cellAt_output_ppp countries sectorList all_output ppp i j hi hj, hnan]
    cases h : all_output.lookup (countries.getD i "" ++ "_" ++ sectorList.getD j "") <;>
      simp [h, fdiv_nan_right]
  · intro j _ hsome hmem
    rw [mem_missingKeys_iff] at hmem
    obtain ⟨c, _, s, _, _, hnone⟩ := hmem
    rw [hnone] at hsome
    exact absurd hsome (by decide)
  · intro hmem
    rw [filterRows, List.mem_filter] at hmem
    have hlen : ((output_ppp countries sectorList all_output ppp).getD i []).length =
        sectorList.length := by
      rw [row_output_ppp countries sectorList all_output ppp i hi, List.length_map]
    have hne : (output_ppp countries sectorList all_output ppp).getD i [] ≠ [] := by
      intro hemp
      rw [hemp] at hlen
      exact hs (List.eq_nil_of_length_eq_zero hlen.symm)
    obtain ⟨v, hv⟩ := List.exists_mem_of_ne_nil _ hne
    have : ((output_ppp countries sectorList all_output ppp).getD i []).any FVal.isnan
        = true := List.any_eq_true.mpr ⟨v, hv, hall v hv⟩
    rw [this] at hmem
    exact absurd hmem.2 (by decide)

/-- Witness for the amended C10 at a concrete instance: one country "AAA" with
NaN PPP and one sector with its key present; the country's row is absent from
the post-filter matrix. -/
theorem C10_ppp_nan_row_dropped_witness :
    ((fun _ => FVal.nan) : String → FVal) (["AAA"].getD 0 "") = FVal.nan
    ∧ (["S1"] : List String) ≠ []
    ∧ (output_ppp ["AAA"] ["S1"] [("AAA_S1", FVal.fin 5)]
        (fun _ => FVal.nan)).getD 0 [] ∉
        filterRows (output_ppp ["AAA"] ["S1"] [("AAA_S1", FVal.fin 5)]
          (fun _ => FVal.nan)) :=
  ⟨rfl, by decide,
    (C10_ppp_nan_row_dropped ["AAA"] ["S1"] [("AAA_S1", FVal.fin 5)]
      (fun _ => FVal.nan) 0 (by decide) rfl (by decide)).2.2⟩

/-- C4 (code behaviour at the failing inputs): when no column carries the
"AUS_" prefix the sector list is empty, yet no EmptySectorList-class error is
raised: the build proceeds, every per-country row is empty, the NaN row filter
retains those rows, and the first failure is the generic out-of-bounds target
slice `[:, -1]` (embedded as `none`). With an empty harmonized table (no
countries) the matrix is empty and the pipeline proceeds all the way to the
solver with a degenerate 0-row input (the target slice succeeds as `[]`). -/
theorem C4_no_empty_guard :
    sectors ["USA_S1", "USA_S2"] = []
    ∧ filterRows (output_ppp ["AAA"] (sectors ["USA_S1", "USA_S2"]) []
        (fun _ => FVal.fin 1)) = [[]]
    ∧ lastColumn (filterRows (output_ppp ["AAA"] (sectors ["USA_S1", "USA_S2"]) []
        (fun _ => FVal.fin 1))) = none
    ∧ filterRows (output_ppp [] ["S1"] [] (fun _ => FVal.fin 1)) = []
    ∧ lastColumn (filterRows (output_ppp [] ["S1"] [] (fun _ => FVal.fin 1))) =
        some [] := by
  decide

/-- C6: wherever both the GNI-Atlas and GNI-PPP values of a country are
present (finite, with the divisor non-zero), the derived PPP column is their
elementwise quotient. -/
theorem C6_ppp_ratio (atlas gnippp : String → FVal) (country : String) (a g : ℚ)
    (ha : atlas country = FVal.fin a) (hg : gnippp country = FVal.fin g)
    (hg0 : g ≠ 0) :
    pppColumn atlas gnippp country = FVal.fin (a / g) := by
  unfold pppColumn
  rw [ha, hg]
  simp [fdiv, hg0]

/-- Witness for C6 at a concrete instance: Atlas value 10, PPP value 4, ratio
10/4. -/
theorem C6_ppp_ratio_witness :
    pppColumn (fun _ => FVal.fin 10) (fun _ => FVal.fin 4) "AAA" = FVal.fin (10 / 4) :=
  C6_ppp_ratio (fun _ => FVal.fin 10) (fun _ => FVal.fin 4) "AAA" 10 4 rfl rfl
    (by norm_num)

/-- C8: the per-country collapse keeps the maximum observed value over the
time axis — it is an observed value and an upper bound of all observations —
and on the concrete two-observation list `[(1, 5), (2, 3)]` it keeps the
largest value 5, not the most recent value 3. -/
theorem C8_max_collapse (obs : List (Nat × ℚ)) (hne : obs ≠ []) :
    (∃ m, sequenceValue obs = some m ∧ (∃ q ∈ obs, q.2 = m) ∧ ∀ q ∈ obs, q.2 ≤ m)
    ∧ sequenceValue [(1, 5), (2, 3)] = some 5 := by
  constructor
  · have hmap : obs.map Prod.snd ≠ [] := by simpa using hne
    have hsome : (obs.map Prod.snd).max?.isSome = true := by
      cases h : (obs.map Prod.snd).max? with
      | none => exact absurd (List.max?_eq_none_iff.mp h) hmap
      | some m => rfl
    obtain ⟨m, hm⟩ := Option.isSome_iff_exists.mp hsome
    refine ⟨m, hm, ?_, ?_⟩
    · have hmem := List.max?_mem (fun a b => max_choice a b) hm
      rw [List.mem_map] at hmem
      obtain ⟨q, hq, hq2⟩ := hmem
      exact ⟨q, hq, hq2⟩
    · intro q hq
      have hle := (List.max?_le_iff (fun a b c => max_le_iff) hm).mp (le_refl m)
      exact hle q.2 (List.mem_map_of_mem Prod.snd hq)
  · decide

/-- Witness for C8 at a concrete instance: observations at periods 3 and 4
with values 7 and 2; the collapse returns an observed value bounding both. -/
theorem C8_max_collapse_witness :
    ([((3 : Nat), (7 : ℚ)), (4, 2)] ≠ ([] : List (Nat × ℚ)))
    ∧ ∃ m, sequenceValue [(3, 7), (4, 2)] = some m
        ∧ (∃ q ∈ ([((3 : Nat), (7 : ℚ)), (4, 2)] : List (Nat × ℚ)), q.2 = m)
        ∧ ∀ q ∈ ([((3 : Nat), (7 : ℚ)), (4, 2)] : List (Nat × ℚ)), q.2 ≤ m :=
  ⟨by decide, (C8_max_collapse [(3, 7), (4, 2)] (by decide)).1⟩

/-! Helper lemmas about the least-squares objective. -/

/-- Dot product unfolds over cons cells. -/
theorem dot_cons (a : ℚ) (r : List ℚ) (x : ℚ) (xs : List ℚ) :
    dot (a :: r) (x :: xs) = a * x + dot r xs := by
  simp [dot]

/-- An all-zero row has zero dot product with every vector. -/
theorem dot_replicate_zero (n : Nat) (w : List ℚ) :
    dot (List.replicate n 0) w = 0 := by
  induction n generalizing w with
  | zero => simp [dot]
  | succ k ih =>
    cases w with
    | nil => simp [dot]
    | cons x xs =>
      rw [List.replicate_succ, dot_cons, ih]
      ring

/-- The objective unfolds over a leading row/target pair. -/
theorem sumSqResid_cons (r : List ℚ) (A : List (List ℚ)) (t : ℚ) (b w : List ℚ) :
    sumSqResid (r :: A) (t :: b) w = (dot r w - t) ^ 2 + sumSqResid A b w := by
  simp [sumSqResid]

/-- The objective is a sum of squares, hence non-negative. -/
theorem sumSqResid_nonneg (A : List (List ℚ)) (b w : List ℚ) :
    0 ≤ sumSqResid A b w := by
  induction A generalizing b with
  | nil => simp [sumSqResid]
  | cons r rs ih =>
    cases b with
    | nil => simp [sumSqResid]
    | cons t ts =>
      rw [sumSqResid_cons]
      exact add_nonneg (sq_nonneg _) (ih ts)

/-- Prepending a zero column to the matrix and a leading coefficient to the
vector leaves the objective unchanged. -/
theorem sumSqResid_map_cons_zero (A : List (List ℚ)) (b : List ℚ) (w0 : ℚ)
    (w : List ℚ) :
    sumSqResid (A.map (fun row => (0 : ℚ) :: row)) b (w0 :: w) =
      sumSqResid A b w := by
  induction A generalizing b with
  | nil => rfl
  | cons r rs ih =>
    cases b with
    | nil => rfl
    | cons t ts =>
      rw [List.map_cons, sumSqResid_cons, sumSqResid_cons, dot_cons, ih]
      ring

/-- On the identity matrix the objective is the summed squared differences of
coefficients and targets. -/
theorem sumSqResid_idMat (b w : List ℚ) (h : w.length = b.length) :
    sumSqResid (idMat b.length) b w =
      (List.zipWith (fun x y => (x - y) ^ 2) w b).sum := by
  induction b generalizing w with
  | nil =>
    have hw : w = [] := List.eq_nil_of_length_eq_zero h
    subst hw
    rfl
  | cons t ts ih =>
    cases w with
    | nil => simp at h
    | cons w0 ws =>
      have hlen : ws.length = ts.length := by simpa using h
      rw [List.length_cons, idMat, sumSqResid_cons, dot_cons, dot_replicate_zero,
        sumSqResid_map_cons_zero, ih ws hlen, List.zipWith_cons_cons, List.sum_cons]
      ring

/-- A sum of squared differences over zipped lists is non-negative. -/
theorem zip_sq_sum_nonneg (w b : List ℚ) :
    0 ≤ (List.zipWith (fun x y => (x - y) ^ 2) w b).sum := by
  induction w generalizing b with
  | nil => simp
  | cons x xs ih =>
    cases b with
    | nil => simp
    | cons y ys =>
      rw [List.zipWith_cons_cons, List.sum_cons]
      exact add_nonneg (sq_nonneg _) (ih ys)

/-- The summed squared differences of a list with itself vanish. -/
theorem zip_sq_self (b : List ℚ) :
    (List.zipWith (fun x y => (x - y) ^ 2) b b).sum = 0 := by
  induction b with
  | nil => rfl
  | cons x xs ih =>
    rw [List.zipWith_cons_cons, List.sum_cons, ih]
    ring

/-- Equal-length lists with vanishing summed squared differences are equal. -/
theorem zip_sq_sum_eq_zero (w b : List ℚ) (h : w.length = b.length)
    (hz : (List.zipWith (fun x y => (x - y) ^ 2) w b).sum = 0) : w = b := by
  induction w generalizing b with
  | nil =>
    cases b with
    | nil => rfl
    | cons y ys => simp at h
  | cons x xs ih =>
    cases b with
    | nil => simp at h
    | cons y ys =>
      rw [List.zipWith_cons_cons, List.sum_cons] at hz
      have htail : 0 ≤ (List.zipWith (fun x y => (x - y) ^ 2) xs ys).sum :=
        zip_sq_sum_nonneg xs ys
      have hhead : (x - y) ^ 2 = 0 := by nlinarith [sq_nonneg (x - y)]
      have hxy : x = y := by
        have := (pow_eq_zero_iff two_ne_zero).mp hhead
        linarith
      have hlen : xs.length = ys.length := by simpa using h
      have hz' : (List.zipWith (fun x y => (x - y) ^ 2) xs ys).sum = 0 := by
        nlinarith [sq_nonneg (x - y)]
      rw [hxy, ih ys hlen hz']

/-- The target slice on a matrix of uniform positive row length `k` is the
column of entries at index `k − 1`. -/
theorem target_eq_map_getD (k : Nat) (hk : 0 < k) (m : List (List ℚ))
    (hm : ∀ row ∈ m, row.length = k) :
    target m = m.map (fun row => row.getD (k - 1) 0) := by
  induction m with
  | nil => rfl
  | cons r rs ih =>
    have hr : r.length = k := hm r (List.mem_cons_self r rs)
    have hlast : r.getLast? = some (r.getD (k - 1) 0) := by
      have hk1 : k - 1 < r.length := by omega
      rw [List.getLast?_eq_getElem?, hr, List.getElem?_eq_getElem (by omega : k - 1 < r.length),
        List.getD_eq_getElem _ _ hk1]
    rw [target, List.filterMap_cons, hlast, List.map_cons]
    have ih' := ih (fun row hrow => hm row (List.mem_cons_of_mem r hrow))
    rw [target] at ih'
    rw [ih']

/-- C2: on the filtered dense matrix (uniform row length `k = |Sectors|`), the
estimator takes all columns except the last as predictors and the last column
as target, and any solution of the bounded least-squares problem (as the spec
characterizes `lsq_linear` with bounds `(0, ∞)`) has length `|Sectors| − 1`,
is elementwise non-negative, and minimizes the squared Euclidean norm of
`predictors·w − target` over all non-negative vectors of that length. -/
theorem C2_estimator_split (k : Nat) (m : List (List ℚ)) (w : List ℚ)
    (hk : 0 < k) (hm : ∀ row ∈ m, row.length = k)
    (hw : IsLsqLinearSolution (k - 1) (predictors m) (target m) w) :
    w.length = k - 1
    ∧ (∀ x ∈ w, 0 ≤ x)
    ∧ predictors m = m.map (fun row => row.take (k - 1))
    ∧ target m = m.map (fun row => row.getD (k - 1) 0)
    ∧ (∀ w' : List ℚ, w'.length = k - 1 → (∀ x ∈ w', 0 ≤ x) →
        sumSqResid (predictors m) (target m) w ≤
          sumSqResid (predictors m) (target m) w') := by
  obtain ⟨hlen, hpos, hmin⟩ := hw
  refine ⟨hlen, hpos, ?_, target_eq_map_getD k hk m hm, hmin⟩
  unfold predictors
  apply List.map_congr_left
  intro row hrow
  rw [List.dropLast_eq_take, hm row hrow]

/-- Witness for C2 at a concrete instance: a 1 × 1 matrix `[[5]]` (one sector),
empty predictor set, and the empty coefficient vector as solution. -/
theorem C2_estimator_split_witness :
    (0 : Nat) < 1
    ∧ IsLsqLinearSolution 0 (predictors [[(5 : ℚ)]]) (target [[(5 : ℚ)]]) []
    ∧ ([] : List ℚ).length = 1 - 1 := by
  have hsol : IsLsqLinearSolution 0 (predictors [[(5 : ℚ)]]) (target [[(5 : ℚ)]]) [] := by
    refine ⟨rfl, by simp, ?_⟩
    intro w' hw' _
    have hnil : w' = [] := List.eq_nil_of_length_eq_zero hw'
    rw [hnil]
  exact ⟨one_pos, hsol,
    (C2_estimator_split 1 [[5]] [] one_pos (by simp) hsol).1⟩

/-- C7: with the identity as (square, full-rank) predictor matrix and an
elementwise non-negative target, any solution of the bounded least-squares
problem is the target vector itself, exactly. -/
theorem C7_identity_reproduces_target (n : Nat) (b w : List ℚ)
    (hb : b.length = n) (hbpos : ∀ x ∈ b, 0 ≤ x)
    (hw : IsLsqLinearSolution n (idMat n) b w) : w = b := by
  subst hb
  obtain ⟨hlen, hpos, hmin⟩ := hw
  have hres_b : sumSqResid (idMat b.length) b b = 0 := by
    rw [sumSqResid_idMat b b rfl, zip_sq_self]
  have hle := hmin b rfl hbpos
  rw [hres_b] at hle
  have hres_w : sumSqResid (idMat b.length) b w = 0 :=
    le_antisymm hle (sumSqResid_nonneg (idMat b.length) b w)
  rw [sumSqResid_idMat b w hlen] at hres_w
  exact zip_sq_sum_eq_zero w b hlen hres_w

/-- Witness for C7 at a concrete instance: 1 × 1 identity, target `[2]`,
solution `[2]`. -/
theorem C7_identity_witness :
    (([(2 : ℚ)] : List ℚ).length = 1)
    ∧ IsLsqLinearSolution 1 (idMat 1) [(2 : ℚ)] [(2 : ℚ)]
    ∧ ([(2 : ℚ)] : List ℚ) = [(2 : ℚ)] := by
  have h0 : sumSqResid (idMat 1) [(2 : ℚ)] [(2 : ℚ)] = 0 := by
    norm_num [sumSqResid, dot, idMat]
  have hsol : IsLsqLinearSolution 1 (idMat 1) [(2 : ℚ)] [(2 : ℚ)] := by
    refine ⟨rfl, by norm_num, ?_⟩
    intro w' _ _
    rw [h0]
    exact sumSqResid_nonneg (idMat 1) [(2 : ℚ)] w'
  exact ⟨rfl, hsol,
    C7_identity_reproduces_target 1 [2] [2] rfl (by norm_num) hsol⟩

/-- First components of a zip are a prefix of the first list, truncated at the
second list's length. -/
theorem map_fst_zip_eq_take (s : List String) (x : List ℚ) :
    (List.zip s x).map Prod.fst = s.take x.length := by
  induction s generalizing x with
  | nil => simp
  | cons a as ih =>
    cases x with
    | nil => simp
    | cons b bs => simp [List.zip_cons_cons, ih]

/-- C9: the reported mapping pairs sector `i` with coefficient `i` for
`i = 0 … |Sectors| − 2` only: with a coefficient vector of length
`|Sectors| − 1`, `zip` truncates, the reported sector names are exactly the
sector list without its last element, and (for distinct sector names) the
last sector — the regression target — never appears in the report. -/
theorem C9_report_pairs (sectorList : List String) (x : List ℚ)
    (hx : x.length = sectorList.length - 1) (hs : sectorList ≠ []) :
    (reportPairs sectorList x).map Prod.fst = sectorList.dropLast
    ∧ (reportPairs sectorList x).length = sectorList.length - 1
    ∧ (∀ i, i < sectorList.length - 1 →
        (reportPairs sectorList x).getD i ("", 0) =
          (sectorList.getD i "", x.getD i 0))
    ∧ (sectorList.Nodup →
        sectorList.getLast hs ∉ (reportPairs sectorList x).map Prod.fst) := by
  have hslen : 0 < sectorList.length := List.length_pos.mpr hs
  have hmapfst : (reportPairs sectorList x).map Prod.fst = sectorList.dropLast := by
    rw [reportPairs, map_fst_zip_eq_take, hx, List.dropLast_eq_take]
  refine ⟨hmapfst, ?_, ?_, ?_⟩
  · rw [reportPairs, List.length_zip, hx]
    omega
  · intro i hi
    have hi_s : i < sectorList.length := by omega
    have hi_x : i < x.length := by omega
    have hzip : (List.zip sectorList x)[i]? =
        some (sectorList.getD i "", x.getD i 0) := by
      apply List.getElem?_zip_eq_some.mpr
      constructor
      · rw [List.getElem?_eq_getElem hi_s, List.getD_eq_getElem _ _ hi_s]
      · rw [List.getElem?_eq_getElem hi_x, List.getD_eq_getElem _ _ hi_x]
    rw [reportPairs, List.getD_eq_getElem?_getD, hzip]
    rfl
  · intro hnodup hmem
    rw [hmapfst] at hmem
    have hsplit := List.dropLast_append_getLast hs
    rw [← hsplit, List.nodup_append] at hnodup
    exact hnodup.2.2 hmem (List.mem_singleton_self _)

/-- Witness for C9 at a concrete instance: sectors ["A", "B"] with one
coefficient; the report names only sector "A". -/
theorem C9_report_pairs_witness :
    ([(1 : ℚ)].length = (["A", "B"] : List String).length - 1)
    ∧ (["A", "B"] : List String) ≠ []
    ∧ (reportPairs ["A", "B"] [(1 : ℚ)]).map Prod.fst =
        (["A", "B"] : List String).dropLast :=
  ⟨by decide, by decide, (C9_report_pairs ["A", "B"] [1] (by decide) (by decide)).1⟩

end Footprint
